import Mathlib

/-!
Shallow embedding of the `testscript` engine of the eden repository
(package `testscript`, file `src/unnamed/part_002`), together with proofs
about its tokenizer, environment handling, transcript machinery, failure
reporting, deferred cleanup, script-update application, exec-condition
memoization and subprocess launch bookkeeping.

Strings are modelled as `List Char`; Go string indexing `s[i]` becomes
`List.get`, and Go slices `s[a:b]` become `slice`.  Loops with an index
variable become fuel-based recursions, where the wrapper supplies fuel
that provably exceeds the number of iterations the Go loop can make.
-/

namespace Eden

/-- Go slice `l[s:e]` on a character list. -/
def slice (l : List Char) (s e : Nat) : List Char :=
  (l.drop s).take (e - s)

/-- The single-quote character of the quoting grammar. -/
def sq : Char := Char.ofNat 39

/-! ### Argument grammar: `TestScript.parse` (part_002 lines 894-949)

The Go loop carries `args`, the current `arg`, a chunk-start index
`start : int` (negative means "no chunk open"), a `quoted` flag and the
scan position `i`.  `parseAux` is that loop body verbatim; `none` models
the `ts.Fatalf("unterminated quoted argument")` abort. -/

def parseAux (expand : List Char → List Char) (line : List Char) :
    Nat → Nat → List (List Char) → List Char → Int → Bool →
    Option (List (List Char))
  | 0, _, _, _, _, _ => none
  | fuel + 1, i, args, arg, start, quoted =>
    if hlen : i < line.length then
      let c := line.get ⟨i, hlen⟩
      if ¬quoted ∧ (c = ' ' ∨ c = '\t' ∨ c = '\r' ∨ c = '#') then
        -- found arg-separating space: flush the open chunk, if any
        let args' := if 0 ≤ start then
            args ++ [arg ++ expand (slice line start.toNat i)] else args
        let arg' : List Char := if 0 ≤ start then [] else arg
        if c = '#' then some args'
        else parseAux expand line fuel (i + 1) args' arg' (-1) quoted
      else if c = sq then
        if ¬quoted then
          -- starting a quoted chunk
          let arg' := if 0 ≤ start then
              arg ++ expand (slice line start.toNat i) else arg
          parseAux expand line fuel (i + 1) args arg' (Int.ofNat (i + 1)) true
        else if h2 : i + 1 < line.length then
          if line.get ⟨i + 1, h2⟩ = sq then
            -- doubled quote inside quotes is a literal quote
            parseAux expand line fuel (i + 2) args
              (arg ++ slice line start.toNat i) (Int.ofNat (i + 1)) true
          else
            -- ending a quoted chunk
            parseAux expand line fuel (i + 1) args
              (arg ++ slice line start.toNat i) (Int.ofNat (i + 1)) false
        else
          parseAux expand line fuel (i + 1) args
            (arg ++ slice line start.toNat i) (Int.ofNat (i + 1)) false
      else
        -- character worth saving: open a chunk if none is open
        let start' := if 0 ≤ start then start else Int.ofNat i
        parseAux expand line fuel (i + 1) args arg start' quoted
    else
      -- i ≥ len(line): flush and stop, or fatal when still quoted
      if quoted then none
      else if 0 ≤ start then
        some (args ++ [arg ++ expand (slice line start.toNat i)])
      else some args

/-- Function `TestScript.parse`: tokenize one script line.  `none` models the fatal
"unterminated quoted argument" abort.  The fuel `line.length + 1` bounds
the loop, whose index strictly increases each iteration and stops once it
reaches `line.length`. -/
def parse (expand : List Char → List Char) (line : List Char) :
    Option (List (List Char)) :=
  parseAux expand line (line.length + 1) 0 [] [] (-1) false

/-- String-level wrapper for `parse` with expansion disabled (identity),
convenient for grammar-only statements. -/
def parseStr (line : String) : Option (List String) :=
  (parse id line.toList).map (·.map List.asString)

/-! ### Environment list and lookup (part_002 lines 76-93, 370-375, 879-888) -/

/-- Modelled from the spec: `envvarname` of the testscript package is not under
`src/`.  Per the spec, environment keys are "compared case-insensitively on
platforms where that is required" (and part_002 line 281 notes "on Windows keys
are lowercase"), so on such a platform it lowercases the key and elsewhere it
is the identity.  The platform is passed as the flag `windows`. -/
def envvarname (windows : Bool) (k : List Char) : List Char :=
  if windows then k.map Char.toLower else k

/-- Go `strings.SplitN(s, "=", 2)` viewed as: `some (before, after)` split at the
first `'='`, or `none` when `s` contains no `'='` (the length-2 check at
part_002 line 79 fails exactly then). -/
def splitOnceEq : List Char → Option (List Char × List Char)
  | [] => none
  | c :: rest =>
    if c = '=' then some ([], rest)
    else (splitOnceEq rest).map (fun p => (c :: p.1, p.2))

/-- The loop body of `Env.Getenv` (part_002 lines 78-83): scan the variable
list from the end, return the value of the first pair whose (normalized) key
matches.  The caller passes the list already reversed, so this scans
`e.Vars[len-1]`, `e.Vars[len-2]`, ... exactly like the Go `for i := len-1; ...`
loop. -/
def getenvLoop (windows : Bool) (key : List Char) : List (List Char) → List Char
  | [] => []
  | v :: rest =>
    match splitOnceEq v with
    | some (k, val) =>
        if envvarname windows k = key then val else getenvLoop windows key rest
    | none => getenvLoop windows key rest

/-- Function `Env.Getenv` (part_002 lines 76-84): last-match-wins lookup over the
ordered `KEY=VALUE` list; the empty string for an absent key. -/
def Env.Getenv (windows : Bool) (vars : List (List Char)) (key : List Char) :
    List Char :=
  getenvLoop windows (envvarname windows key) vars.reverse

/-- Whether an env entry matches a (normalized) key, i.e. whether the loop of
`Env.Getenv` would stop at it. -/
def matchesKey (windows : Bool) (key : List Char) (entry : List Char) : Bool :=
  match splitOnceEq entry with
  | some (k, _) => envvarname windows k = key
  | none => false

/-- Function `Env.Setenv` (part_002 lines 88-93): `none` models the
`panic(fmt.Errorf("invalid environment variable key %q", key))`; otherwise the
pair is appended to the variable list. -/
def Env.Setenv (vars : List (List Char)) (key value : List Char) :
    Option (List (List Char)) :=
  if key = [] ∨ '=' ∈ key then none
  else some (vars ++ [key ++ '=' :: value])

/-- The pair of `ts.env` and `ts.envMap` carried by a `TestScript`
(part_002 lines 280-281); the map is an association list whose most recent
binding for a key comes first. -/
structure TSEnv where
  env : List (List Char)
  envMap : List (List Char × List Char)
deriving DecidableEq, Repr

/-- Go map assignment `m[k] = v`, as cons onto an association list read by
first match. -/
def mapSet (m : List (List Char × List Char)) (k v : List Char) :
    List (List Char × List Char) :=
  (k, v) :: m

/-- Go map read `m[k]` with the string zero value for a missing key. -/
def mapGet (m : List (List Char × List Char)) (k : List Char) : List Char :=
  match m.find? (fun p => p.1 = k) with
  | some p => p.2
  | none => []

/-- The `envMap` construction of `TestScript.setup` (part_002 lines 370-375):
fold the env list left to right, so a later `KEY=VALUE` overwrites an earlier
one; entries without `'='` are skipped. -/
def buildEnvMap (windows : Bool) (env : List (List Char)) :
    List (List Char × List Char) :=
  env.foldl
    (fun m kv =>
      match splitOnceEq kv with
      | some (k, v) => mapSet m (envvarname windows k) v
      | none => m)
    []

/-- Function `TestScript.Setenv` (part_002 lines 880-883): appends `key+"="+value` to
`ts.env` and stores it in `ts.envMap` — with no validation of the key. -/
def TestScript.Setenv (windows : Bool) (st : TSEnv) (key value : List Char) :
    TSEnv :=
  { env := st.env ++ [key ++ '=' :: value]
    envMap := mapSet st.envMap (envvarname windows key) value }

/-- Function `TestScript.Getenv` (part_002 lines 886-888). -/
def TestScript.Getenv (windows : Bool) (st : TSEnv) (key : List Char) :
    List Char :=
  mapGet st.envMap (envvarname windows key)

/-! ### Variable expansion: `TestScript.expand` (part_002 lines 785-792)

`TestScript.expand` delegates to `os.Expand` of the Go standard library with
a custom mapping; `expandOS`/`getShellName` below embed `os.Expand` and its
helpers, and `quoteMeta` embeds `regexp.QuoteMeta`. -/

/-- Helper `isShellSpecialVar` of `os.Expand`: the special single-character
shell parameter names `* # $ @ ! ? -` and the digits. -/
def isShellSpecialVar (c : Char) : Bool :=
  c = '*' ∨ c = '#' ∨ c = '$' ∨ c = '@' ∨ c = '!' ∨ c = '?' ∨ c = '-' ∨
    ('0' ≤ c ∧ c ≤ '9')

/-- Helper `isAlphaNum` of `os.Expand`. -/
def isAlphaNum (c : Char) : Bool :=
  c = '_' ∨ ('0' ≤ c ∧ c ≤ '9') ∨ ('a' ≤ c ∧ c ≤ 'z') ∨ ('A' ≤ c ∧ c ≤ 'Z')

/-- Helper `getShellName` of `os.Expand`: the variable name starting the string (which
is the text after a `'$'`) and the number of characters it occupies. -/
def getShellName (s : List Char) : List Char × Nat :=
  match s with
  | [] => ([], 0)
  | '\x7b' :: rest =>
    -- fast path: `${x}` for a special single-character variable name
    (match rest with
     | r1 :: r2 :: _ =>
       if isShellSpecialVar r1 ∧ r2 = '\x7d' then some ([r1], 3) else none
     | _ => none).getD
    -- otherwise scan to the closing brace
    (match rest.findIdx? (· = '\x7d') with
     | some j =>
       if j = 0 then ([], 2)            -- bad syntax `${}`: eat it
       else (rest.take j, j + 2)        -- name `s[1:i]`, width `i+1`
     | none => ([], 1))                 -- bad syntax, no `}`: eat `${`
  | c :: rest =>
    if isShellSpecialVar c then ([c], 1)
    else
      -- scan alphanumerics
      let name := (c :: rest).takeWhile isAlphaNum
      (name, name.length)

/-- The loop of `os.Expand`, character by character: a `'$'` followed by a
shell name substitutes the mapping; bad syntax is eaten; a `'$'` followed by
no name is kept literally.  The fuel strictly exceeds the number of loop
steps, each of which consumes at least one character. -/
def expandAux (mapping : List Char → List Char) : Nat → List Char → List Char
  | 0, s => s
  | fuel + 1, s =>
    match s with
    | [] => []
    | c :: rest =>
      if c = '$' ∧ rest ≠ [] then
        let nw := getShellName rest
        if nw.1 = [] ∧ 0 < nw.2 then expandAux mapping fuel (rest.drop nw.2)
        else if nw.1 = [] then c :: expandAux mapping fuel rest
        else mapping nw.1 ++ expandAux mapping fuel (rest.drop nw.2)
      else c :: expandAux mapping fuel rest

/-- Go `os.Expand s mapping`. -/
def expandOS (mapping : List Char → List Char) (s : List Char) : List Char :=
  expandAux mapping (s.length + 1) s

/-- The characters `regexp.QuoteMeta` escapes (Go's `specialBytes`). -/
def isRegexSpecial (c : Char) : Bool :=
  c = '\\' ∨ c = '.' ∨ c = '+' ∨ c = '*' ∨ c = '?' ∨ c = '(' ∨ c = ')' ∨
    c = '|' ∨ c = '[' ∨ c = ']' ∨ c = '\x7b' ∨ c = '\x7d' ∨ c = '^' ∨ c = '$'

/-- Go `regexp.QuoteMeta`: escape every regex metacharacter with a backslash. -/
def quoteMeta : List Char → List Char
  | [] => []
  | c :: rest =>
    if isRegexSpecial c then '\\' :: c :: quoteMeta rest
    else c :: quoteMeta rest

/-- Go `strings.TrimSuffix`. -/
def trimSuffix (s suffix : List Char) : List Char :=
  if s.drop (s.length - suffix.length) = suffix then
    s.take (s.length - suffix.length)
  else s

/-- The mapping closure inside `TestScript.expand` (part_002 lines 786-791):
a reference whose name ends in `@R` substitutes the regex-escaped value of
the variable named without the suffix, otherwise the raw value. -/
def tsExpandMapping (getenv : List Char → List Char) (key : List Char) :
    List Char :=
  let key1 := trimSuffix key ['@', 'R']
  if key1.length ≠ key.length then quoteMeta (getenv key1)
  else getenv key

/-- Function `TestScript.expand` (part_002 lines 785-792). -/
def TestScript.expand (getenv : List Char → List Char) (s : List Char) :
    List Char :=
  expandOS (tsExpandMapping getenv) s

/-! ### Transcript: rewind / markTime / phase headings
(part_002 lines 382-398 and 449-465)

The transcript is `ts.log` (a byte buffer), `ts.mark` (offset of the start of
the current phase's output, i.e. just past the heading's newline) and
`ts.start` (the phase start time; `IsZero` exactly when no phase timer runs,
modelled by the flag `startSet`).  Wall-clock elapsed time is not modelled:
`markTime` takes the formatted `%.3f` seconds text as a parameter. -/

structure LogState where
  log : List Char
  mark : Nat
  startSet : Bool
deriving DecidableEq, Repr

/-- The `rewind` closure (part_002 lines 383-387): in quiet mode truncate the
log back to the mark, in verbose mode do nothing. -/
def rewind (verbose : Bool) (st : LogState) : LogState :=
  if verbose then st else { st with log := st.log.take st.mark }

/-- The `markTime` closure (part_002 lines 390-398): when a phase is open
(`mark > 0` and a start time is set), cut the newline ending the heading line,
append `" (<elapsed>s)\n"`, and re-append what followed the mark; always clear
the start time. -/
def markTime (elapsed : List Char) (st : LogState) : LogState :=
  if 0 < st.mark ∧ st.startSet then
    { log := st.log.take (st.mark - 1) ++
        (' ' :: '(' :: elapsed ++ ('s' :: ')' :: '\n' :: [])) ++
        st.log.drop st.mark
      mark := st.mark
      startSet := false }
  else { st with startSet := false }

/-- Appending one line to the transcript, as the run loop's
`fmt.Fprintf(&ts.log, "> %s\n", line)` echo or `ts.Logf` does. -/
def logLine (s : List Char) (st : LogState) : LogState :=
  { st with log := st.log ++ s ++ ['\n'] }

/-- The phase-heading branch of the run loop (part_002 lines 450-464): if
anything was logged since the mark, close the previous phase (rewind, then
mark its elapsed time); then print the heading, set the mark just past it and
start the phase timer. -/
def phaseHeading (verbose : Bool) (elapsed : List Char) (line : List Char)
    (st : LogState) : LogState :=
  let st1 := if st.mark < st.log.length then markTime elapsed (rewind verbose st)
    else st
  let log2 := st1.log ++ line ++ ['\n']
  { log := log2, mark := log2.length, startSet := true }

/-! ### Failure annotation: `Fatalf` / `addGHAnnotationLine`
(part_002 lines 820-847) -/

/-- Go `strings.ReplaceAll s [c] rep` for a single-character pattern. -/
def replaceAllChar (c : Char) (rep : List Char) : List Char → List Char
  | [] => []
  | x :: rest =>
    if x = c then rep ++ replaceAllChar c rep rest
    else x :: replaceAllChar c rep rest

/-- The escaping of `addGHAnnotationLine` (part_002 lines 834-835): first every
`"\n"` becomes `"%0A"`, then every `"\r"` of the result becomes `"%0D"`. -/
def escapeGH (s : List Char) : List Char :=
  replaceAllChar '\r' ('%' :: '0' :: 'D' :: [])
    (replaceAllChar '\n' ('%' :: '0' :: 'A' :: []) s)

/-- Go `strings.LastIndex s pat`: index of the last occurrence of `pat` in `s`,
`-1 ` when there is none. -/
def lastIndex (s pat : List Char) : Int :=
  match ((List.range (s.length + 1)).filter
      (fun i => decide (slice s i (i + pat.length) = pat))).getLast? with
  | some i => Int.ofNat i
  | none => -1

/-- The `"\n[stdout]\n"` marker `addGHAnnotationLine` searches for
(part_002 line 832). -/
def stdoutMarker : List Char :=
  '\n' :: '[' :: 's' :: 't' :: 'd' :: 'o' :: 'u' :: 't' :: ']' :: '\n' :: []

/-- Function `addGHAnnotation` of the source (part_002 lines 820-838), named `addGHAnnotationLine` here: the single annotation line
printed for a fatal failure.  The message is everything in the log from just
past the newline opening the most recent `"\n[stdout]\n"` marker (the whole
log when there is none), with newlines and carriage returns collapsed to
`%0A`/`%0D`.  `pathToPrint` is the script path after the `tests/`-relative
rewrite of lines 821-830, which depends on the host filesystem and is
therefore a parameter here. -/
def addGHAnnotationLine (pathToPrint : List Char) (lineno : Nat) (log : List Char) :
    List Char :=
  let lastIndexOfStdout := (lastIndex log stdoutMarker + 1).toNat
  let ghAnnotation := escapeGH (log.drop lastIndexOfStdout)
  (':' :: ':' :: 'e' :: 'r' :: 'r' :: 'o' :: 'r' :: ' ' ::
      'f' :: 'i' :: 'l' :: 'e' :: '=' :: []) ++ pathToPrint ++
    (',' :: 'l' :: 'i' :: 'n' :: 'e' :: '=' :: []) ++
    (toString lineno).toList ++ (':' :: ':' :: []) ++ ghAnnotation ++ ['\n']

/-- Function `TestScript.Fatalf` (part_002 lines 841-847), restricted to its transcript
and annotation effect: append the FAIL line tagged with the script file and
the current line number, then emit the annotation derived from the extended
log.  (The `ts.cancel()`/`ts.stopped`/`FailNow` unwinding is control flow, not
data.)  Returns the new log and the printed annotation line. -/
def TestScript.Fatalf (file : List Char) (lineno : Nat) (msg : List Char)
    (log : List Char) : List Char × List Char :=
  let log' := log ++
    ('F' :: 'A' :: 'I' :: 'L' :: ':' :: ' ' :: []) ++ file ++ [':'] ++
    (toString lineno).toList ++ (':' :: ' ' :: []) ++ msg ++ ['\n']
  (log', addGHAnnotationLine file lineno log')

/-- The annotation format exactly as the spec's words state it
(`file=<path>,line=<n>::<escaped message>`), for comparison with what
`addGHAnnotationLine` actually prints. -/
def specAnnotationFormat (path : List Char) (lineno : Nat) (msg : List Char) :
    List Char :=
  ('f' :: 'i' :: 'l' :: 'e' :: '=' :: []) ++ path ++
    (',' :: 'l' :: 'i' :: 'n' :: 'e' :: '=' :: []) ++
    (toString lineno).toList ++ (':' :: ':' :: []) ++ msg

/-! ### Deferred cleanup: `TestScript.Defer` (part_002 lines 652-658)

`ts.deferred` is one closure; an action is modelled as a trace transformer
that appends the labels of the work it performs. -/

/-- A cleanup action, as the effect it has on an observation trace. -/
def Cleanup : Type := List Nat → List Nat

/-- Function `TestScript.Defer` (part_002 lines 652-658): the new closure runs `f`
first and the previously registered closure afterwards (`defer old()` fires
when `f()` returns). -/
def TestScript.Defer (deferred : Cleanup) (f : Cleanup) : Cleanup :=
  fun tr => deferred (f tr)

/-- The initial `ts.deferred = func() {}` (part_002 line 247). -/
def initialDeferred : Cleanup := fun tr => tr

/-- An atomic cleanup action that just records its label. -/
def actLabel (i : Nat) : Cleanup := fun tr => tr ++ [i]

/-- Registering a list of labelled actions in order via `Defer`. -/
def deferAll (labels : List Nat) : Cleanup :=
  labels.foldl (fun d i => TestScript.Defer d (actLabel i)) initialDeferred

/-- The teardown of `TestScript.run`: the `defer func() { ts.deferred() }()`
at part_002 lines 422-424 is installed before `setup`, so the registered
closure runs exactly once whether the body returned normally or was unwound
by `Fatalf`'s `FailNow`. -/
def runTeardown (body : List Nat → List Nat × Bool) (deferred : Cleanup)
    (tr : List Nat) : List Nat × Bool :=
  let (tr1, fatal) := body tr
  (deferred tr1, fatal)

/-! ### Subprocess launch bookkeeping: `exec` / `execBackground`
(part_002 lines 676-712) -/

/-- The run-context fields `exec`/`execBackground` read or write. -/
structure RunCtx where
  cd : List Char
  env : List (List Char)
  stdin : List Char
  stdout : List Char
  stderr : List Char
deriving DecidableEq, Repr

/-- What a launched subprocess is given: directory, environment (with the
`PWD` override) and standard input. -/
structure Launch where
  dir : List Char
  env : List (List Char)
  stdin : List Char
deriving DecidableEq, Repr

/-- Function `TestScript.exec` (part_002 lines 676-695), restricted to its run-context
effect.  `resolve` is the outcome of `buildExecCmd`'s `execpath.Look`
(`none` = lookup error): on that error the function returns early and touches
nothing.  Otherwise the command is launched with `ts.cd`, `ts.env ++ [PWD=..]`
and `ts.stdin`, and `ts.stdin = ""` runs after the start/wait — also when
`cmd.Start()` itself failed, since the reset at line 693 is unconditional. -/
def TestScript.exec (resolve : Option (List Char)) (ctx : RunCtx) :
    Option Launch × RunCtx :=
  match resolve with
  | none => (none, ctx)
  | some _ =>
    (some ⟨ctx.cd, ctx.env ++ [('P' :: 'W' :: 'D' :: '=' :: []) ++ ctx.cd],
        ctx.stdin⟩,
      { ctx with stdin := [] })

/-- Function `TestScript.execBackground` (part_002 lines 699-712), restricted to its
run-context effect: identical bookkeeping, with `ts.stdin = ""` executed just
before `cmd.Start()` (line 710), hence also on a start failure. -/
def TestScript.execBackground (resolve : Option (List Char)) (ctx : RunCtx) :
    Option Launch × RunCtx :=
  match resolve with
  | none => (none, ctx)
  | some _ =>
    (some ⟨ctx.cd, ctx.env ++ [('P' :: 'W' :: 'D' :: '=' :: []) ++ ctx.cd],
        ctx.stdin⟩,
      { ctx with stdin := [] })

/-! ### `exec:` condition memoization (part_002 lines 35, 602-609) -/

/-- Modelled from the spec: `par.Cache` (package `go-internal/par`) is not
under `src/`.  Per the spec, `exec:<name>` checks "with memoization keyed by
name" and a second evaluation "does not re-probe the filesystem": `Do(key, f)`
returns the value already cached for `key`, computing and storing it via `f`
only when the key is new. -/
def ExecCache : Type := List (List Char × Bool)

/-- The `exec:` branch of `TestScript.condition` (part_002 lines 602-609).
`probe prog` models `execpath.Look(prog, ts.Getenv)` succeeding; the returned
`Nat` counts how many times this call performed that filesystem probe. -/
def condExec (probe : List Char → Bool) (cache : ExecCache)
    (prog : List Char) : Bool × ExecCache × Nat :=
  match cache.find? (fun p => p.1 = prog) with
  | some p => (p.2, cache, 0)
  | none => (probe prog, (prog, probe prog) :: cache, 1)

/-! ### Script updates: `applyScriptUpdates` (part_002 lines 551-583) -/

/-- The inner loop over `ts.archive.Files` for a single captured update
(part_002 lines 556-573): every file entry whose name matches is rewritten
with the (possibly quoted) content, every other entry is kept; the flag says
whether any entry matched.  `enc` stands for the `txtar.NeedsQuote` /
`txtar.Quote` step, whose code (package `go-internal/txtar`) is not under
`src/`; the claimed properties hold for every such encoding. -/
def updateFilesLoop (enc : List Char → List Char) (name content : List Char) :
    List (List Char × List Char) → List (List Char × List Char) × Bool
  | [] => ([], false)
  | f :: rest =>
    let r := updateFilesLoop enc name content rest
    if f.1 = name then ((f.1, enc content) :: r.1, true)
    else (f :: r.1, r.2)

/-- One captured update applied by `applyScriptUpdates`: `none` models the
`panic("script update file not found")` at part_002 line 576. -/
def applyUpdate (enc : List Char → List Char)
    (files : List (List Char × List Char)) (name content : List Char) :
    Option (List (List Char × List Char)) :=
  let r := updateFilesLoop enc name content files
  if r.2 then some r.1 else none

/-! ### Concrete example lines used in the statements -/

/-- The line `a 'b c' d` (single quotes written via `sq`). -/
def exLineQuoted : List Char :=
  'a' :: ' ' :: sq :: 'b' :: ' ' :: 'c' :: sq :: ' ' :: 'd' :: []

/-- The line `'a''b'`. -/
def exLineDoubled : List Char := sq :: 'a' :: sq :: sq :: 'b' :: sq :: []

/-- The line `a # b c`. -/
def exLineComment : List Char := 'a' :: ' ' :: '#' :: ' ' :: 'b' :: ' ' :: 'c' :: []

/-- The line `'a`, whose quoting is unterminated. -/
def exLineUnterminated : List Char := sq :: 'a' :: []

/-- The reference `${FOO@R}` (braces written via escapes). -/
def exRefR : List Char :=
  '$' :: '\x7b' :: 'F' :: 'O' :: 'O' :: '@' :: 'R' :: '\x7d' :: []

/-- The reference `${FOO}`. -/
def exRef : List Char := '$' :: '\x7b' :: 'F' :: 'O' :: 'O' :: '\x7d' :: []

/-- The variable name `FOO`. -/
def fooKey : List Char := 'F' :: 'O' :: 'O' :: []

/-! ## Theorems -/

/-- Claim C1: the tokenizer follows the spec's grammar on its stated examples:
`a 'b c' d` yields `["a", "b c", "d"]`; a doubled quote inside a quoted region
is a literal quote, so `'a''b'` yields `["a'b"]`; an unescaped `#` ends
tokenization, so `a # b c` yields `["a"]`; and an unterminated quote is fatal
(`none`) rather than producing tokens. -/
theorem C1_tokenize_grammar :
    parse id exLineQuoted =
      some (('a' :: []) :: ('b' :: ' ' :: 'c' :: []) :: ('d' :: []) :: []) ∧
    parse id exLineDoubled = some ((('a' :: sq :: 'b' :: []) :: [])) ∧
    parse id exLineComment = some (('a' :: []) :: []) ∧
    parse id exLineUnterminated = none := by decide

/-- Unrolling one `Defer` registration inside a fold of registrations: the
composite closure runs the actions most-recently-deferred first. -/
theorem foldl_defer_apply (ls : List Nat) (d : Cleanup) (tr : List Nat) :
    (ls.foldl (fun d i => TestScript.Defer d (actLabel i)) d) tr =
      d (tr ++ ls.reverse) := by
  induction ls generalizing d tr with
  | nil => simp
  | cons x rest ih =>
    simp only [List.foldl_cons, List.reverse_cons]
    rw [ih]
    simp [TestScript.Defer, actLabel]

/-- Claim C9: deferred cleanup actions run at teardown in LIFO order — pushing
actions labelled `l₁, …, lₙ` via `Defer` and invoking the composite closure
performs them in the order `lₙ, …, l₁` — and the teardown invokes the
composite closure whether or not the body ended in a fatal stop, because the
`defer` wrapping `ts.deferred()` is installed before the script body runs. -/
theorem C9_defer_lifo :
    (∀ labels : List Nat, deferAll labels [] = labels.reverse) ∧
    (∀ (body : List Nat → List Nat × Bool) (deferred : Cleanup)
        (tr : List Nat),
      (runTeardown body deferred tr).1 = deferred (body tr).1) := by
  constructor
  · intro labels
    unfold deferAll
    rw [foldl_defer_apply]
    simp [initialDeferred]
  · intro body deferred tr
    rfl

/-- Claim C7: evaluating `exec:<name>` is memoized
keyed by name: a second evaluation within one run returns the same boolean as
the first, performs zero filesystem probes, and leaves the cache unchanged;
any single evaluation probes at most once. -/
theorem C7_exec_memoized :
    ∀ (probe : List Char → Bool) (cache : ExecCache) (prog : List Char),
      (condExec probe (condExec probe cache prog).2.1 prog).1 =
          (condExec probe cache prog).1 ∧
      (condExec probe (condExec probe cache prog).2.1 prog).2.2 = 0 ∧
      (condExec probe (condExec probe cache prog).2.1 prog).2.1 =
          (condExec probe cache prog).2.1 ∧
      (condExec probe cache prog).2.2 ≤ 1 := by
  intro probe cache prog
  unfold condExec
  cases h : List.find? (fun p => decide (p.1 = prog)) cache with
  | some p => simp [h]
  | none => simp [h, List.find?]

/-- Claim C4, counterexample: `TestScript.Setenv` (part_002 lines 880-883), one
of the two `setenv` entry points the claim covers, performs no key validation:
with key `A=B` (which contains `=`) and with the empty key it mutates the
environment instead of aborting. -/
theorem C4_counterexample :
    (TestScript.Setenv false ⟨[], []⟩ ('A' :: '=' :: 'B' :: [])
        ('v' :: [])).env = ('A' :: '=' :: 'B' :: '=' :: 'v' :: []) :: [] ∧
    (TestScript.Setenv false ⟨[], []⟩ [] ('v' :: [])).env =
      ('=' :: 'v' :: []) :: [] := by decide

/-- Claim C4, amended: `Env.Setenv` panics (aborts without mutating) on an
empty key or a key containing `=`, for every value string, and appends the
pair otherwise; `TestScript.Setenv` performs no validation and always appends
`key=value` to the environment. -/
theorem C4_setenv_validation :
    (∀ vars value, Env.Setenv vars [] value = none) ∧
    (∀ vars key value, '=' ∈ key → Env.Setenv vars key value = none) ∧
    (∀ vars key value, key ≠ [] → '=' ∉ key →
      Env.Setenv vars key value = some (vars ++ [key ++ '=' :: value])) ∧
    (∀ windows st key value,
      (TestScript.Setenv windows st key value).env =
        st.env ++ [key ++ '=' :: value]) := by
  refine ⟨?_, ?_, ?_, ?_⟩
  · intro vars value
    simp [Env.Setenv]
  · intro vars key value h
    simp [Env.Setenv, h]
  · intro vars key value h1 h2
    simp [Env.Setenv, h1, h2]
  · intro windows st key value
    rfl

/-- Witness for claim C4: the amended theorem applied at concrete inputs. -/
theorem C4_setenv_validation_witness :
    Env.Setenv [] ('A' :: '=' :: 'B' :: []) ('v' :: []) = none ∧
    Env.Setenv [] ('K' :: []) ('v' :: []) =
      some (('K' :: '=' :: 'v' :: []) :: []) := by
  constructor
  · exact C4_setenv_validation.2.1 [] _ _ (by decide)
  · exact (C4_setenv_validation.2.2.1 [] ('K' :: []) ('v' :: []) (by decide)
      (by decide)).trans (by decide)

/-- Claim C10, counterexample: when the executable path lookup of `buildExecCmd`
fails, both `exec` and `execBackground` return early and the stored stdin
snapshot is NOT reset — refuting "the run context's stdin is reset to the
empty string even when the launch itself fails". -/
theorem C10_counterexample :
    (TestScript.exec none
        ⟨'d' :: [], [], 'x' :: [], 'o' :: [], 'e' :: []⟩).2.stdin ≠ [] ∧
    (TestScript.execBackground none
        ⟨'d' :: [], [], 'x' :: [], 'o' :: [], 'e' :: []⟩).2.stdin ≠ [] := by
  decide

/-- Claim C10, amended: when command resolution succeeds, a foreground `exec`
or background start consumes the stored stdin snapshot — the launched process
receives the old `cd`, `env ++ [PWD=cd]` and `stdin`, and the context's stdin
is reset to empty (also when `cmd.Start()` itself fails, since the reset is
unconditional after that point) while `cd`, `env`, `stdout` and `stderr` are
untouched; when resolution fails, the early return leaves the whole context
unchanged, stdin included. -/
theorem C10_stdin_consumed :
    (∀ cmd ctx,
      TestScript.exec (some cmd) ctx =
        (some ⟨ctx.cd,
            ctx.env ++ [('P' :: 'W' :: 'D' :: '=' :: []) ++ ctx.cd],
            ctx.stdin⟩,
          { ctx with stdin := [] }) ∧
      TestScript.execBackground (some cmd) ctx =
        (some ⟨ctx.cd,
            ctx.env ++ [('P' :: 'W' :: 'D' :: '=' :: []) ++ ctx.cd],
            ctx.stdin⟩,
          { ctx with stdin := [] })) ∧
    (∀ ctx, TestScript.exec none ctx = (none, ctx) ∧
      TestScript.execBackground none ctx = (none, ctx)) := by
  exact ⟨fun cmd ctx => ⟨rfl, rfl⟩, fun ctx => ⟨rfl, rfl⟩⟩

/-- The rewrite loop of `applyScriptUpdates` maps every matching entry to the
encoded content and keeps every other entry. -/
theorem updateFilesLoop_fst (enc : List Char → List Char)
    (name content : List Char) (files : List (List Char × List Char)) :
    (updateFilesLoop enc name content files).1 =
      files.map (fun f => if f.1 = name then (name, enc content) else f) := by
  induction files with
  | nil => rfl
  | cons f rest ih =>
    simp only [updateFilesLoop, List.map_cons]
    by_cases h : f.1 = name
    · simp [h, ih]
    · simp [h, ih]

/-- The rewrite loop's `found` flag is exactly "some entry has the target
name". -/
theorem updateFilesLoop_snd (enc : List Char → List Char)
    (name content : List Char) (files : List (List Char × List Char)) :
    (updateFilesLoop enc name content files).2 =
      files.any (fun f => decide (f.1 = name)) := by
  induction files with
  | nil => rfl
  | cons f rest ih =>
    by_cases h : f.1 = name <;> simp [updateFilesLoop, h, ih]

/-- Claim C5: applying a captured update whose target name matches no file entry
of the archive is a fatal internal error (`none`, the
`panic("script update file not found")`); when the name is present, every
entry with that name is rewritten in place to the encoded content and every
other entry is left unchanged.  `enc` abstracts the `txtar` quote-if-needed
step; the property holds for every encoding. -/
theorem C5_apply_update :
    (∀ (enc : List Char → List Char) (files : List (List Char × List Char))
        (name content : List Char),
      (∀ f ∈ files, f.1 ≠ name) → applyUpdate enc files name content = none) ∧
    (∀ (enc : List Char → List Char) (files : List (List Char × List Char))
        (name content : List Char) (f0 : List Char × List Char),
      f0 ∈ files → f0.1 = name →
      applyUpdate enc files name content =
        some (files.map (fun f => if f.1 = name then (name, enc content)
          else f))) := by
  constructor
  · intro enc files name content h
    have hany : files.any (fun f => decide (f.1 = name)) = false := by
      rw [List.any_eq_false]
      intro f hf
      simp [h f hf]
    simp [applyUpdate, updateFilesLoop_snd, hany]
  · intro enc files name content f0 hmem hname
    have hany : files.any (fun f => decide (f.1 = name)) = true :=
      List.any_eq_true.mpr ⟨f0, hmem, by simp [hname]⟩
    simp [applyUpdate, updateFilesLoop_snd, hany, updateFilesLoop_fst]

/-- Witness for claim C5: the theorem applied to a concrete archive — an absent
name aborts; a present name rewrites both entries carrying it and keeps the
middle entry. -/
theorem C5_apply_update_witness :
    applyUpdate id ((('a' :: []), ('1' :: [])) :: []) ('z' :: [])
        ('N' :: []) = none ∧
    applyUpdate id
        ((('a' :: []), ('1' :: [])) :: (('b' :: []), ('2' :: [])) ::
          (('a' :: []), ('3' :: [])) :: [])
        ('a' :: []) ('N' :: []) =
      some ((('a' :: []), ('N' :: [])) :: (('b' :: []), ('2' :: [])) ::
        (('a' :: []), ('N' :: [])) :: []) := by
  constructor
  · exact C5_apply_update.1 id _ _ _ (by decide)
  · exact (C5_apply_update.2 id _ ('a' :: []) ('N' :: [])
      (('a' :: []), ('1' :: [])) (by simp) rfl).trans (by decide)

/-- Lemma: `splitOnceEq` splits a well-formed `KEY=VALUE` entry at the first `=`. -/
theorem splitOnceEq_mk (k v : List Char) (h : '=' ∉ k) :
    splitOnceEq (k ++ '=' :: v) = some (k, v) := by
  induction k with
  | nil => simp [splitOnceEq]
  | cons c rest ih =>
    have hc : c ≠ '=' := fun e => h (e ▸ List.mem_cons_self c rest)
    simp only [List.cons_append, splitOnceEq, if_neg hc, List.append_eq,
      ih (fun m => h (List.mem_cons_of_mem c m)), Option.map_some']

/-- The `Env.Getenv` scan skips an entry that does not match the key. -/
theorem getenvLoop_skip (windows : Bool) (key entry : List Char)
    (rest : List (List Char)) (h : matchesKey windows key entry = false) :
    getenvLoop windows key (entry :: rest) = getenvLoop windows key rest := by
  unfold matchesKey at h
  cases hs : splitOnceEq entry with
  | none => simp [getenvLoop, hs]
  | some p =>
    obtain ⟨k, val⟩ := p
    rw [hs] at h
    simp only [decide_eq_false_iff_not] at h
    simp [getenvLoop, hs, h]

/-- The `Env.Getenv` scan passes over a block of non-matching entries. -/
theorem getenvLoop_append (windows : Bool) (key : List Char)
    (l1 l2 : List (List Char))
    (h : ∀ e ∈ l1, matchesKey windows key e = false) :
    getenvLoop windows key (l1 ++ l2) = getenvLoop windows key l2 := by
  induction l1 with
  | nil => rfl
  | cons e rest ih =>
    rw [List.cons_append,
      getenvLoop_skip _ _ _ _ (h e (List.mem_cons_self e rest)),
      ih (fun x hx => h x (List.mem_cons_of_mem e hx))]

/-- Claim C6: environment lookup is last-match-wins over the ordered
`KEY=VALUE` list: if an entry `k=v` is followed only by entries that do not
match `k`, `Getenv` returns `v`, whatever matching entries precede it;
a key matched by no entry yields the empty string; concretely
`Getenv ["X=1", "X=2"] "X" = "2"`, and on a platform with case-insensitive
keys `Getenv ["X=1"] "x" = "1"`. -/
theorem C6_getenv_last_match :
    (∀ (windows : Bool) (xs ys : List (List Char)) (k v : List Char),
      '=' ∉ k →
      (∀ e ∈ ys, matchesKey windows (envvarname windows k) e = false) →
      Env.Getenv windows (xs ++ (k ++ '=' :: v) :: ys) k = v) ∧
    (∀ (windows : Bool) (vars : List (List Char)) (k : List Char),
      (∀ e ∈ vars, matchesKey windows (envvarname windows k) e = false) →
      Env.Getenv windows vars k = []) ∧
    Env.Getenv false
        (('X' :: '=' :: '1' :: []) :: ('X' :: '=' :: '2' :: []) :: [])
        ('X' :: []) = '2' :: [] ∧
    Env.Getenv true (('X' :: '=' :: '1' :: []) :: []) ('x' :: []) =
      '1' :: [] := by
  refine ⟨?_, ?_, by decide, by decide⟩
  · intro windows xs ys k v hk hys
    unfold Env.Getenv
    rw [List.reverse_append, List.reverse_cons, List.append_assoc,
      getenvLoop_append _ _ _ _ (fun e he => hys e (List.mem_reverse.mp he))]
    simp only [List.singleton_append, getenvLoop, splitOnceEq_mk k v hk]
    simp
  · intro windows vars k h
    unfold Env.Getenv
    have := getenvLoop_append windows (envvarname windows k) vars.reverse []
      (fun e he => h e (List.mem_reverse.mp he))
    simpa using this

/-- Witness for claim C6: last-match-wins applied to the concrete list
`["A=0", "X=9", "B=1"]` and absent-key lookup applied to `["A=1"]`. -/
theorem C6_getenv_last_match_witness :
    Env.Getenv false ((('A' :: '=' :: '0' :: []) :: []) ++
        ((('X' :: []) ++ '=' :: ('9' :: [])) ::
          (('B' :: '=' :: '1' :: []) :: []))) ('X' :: []) = '9' :: [] ∧
    Env.Getenv false (('A' :: '=' :: '1' :: []) :: []) ('Z' :: []) = [] := by
  constructor
  · exact C6_getenv_last_match.1 false _ _ ('X' :: []) ('9' :: [])
      (by decide) (by decide)
  · exact C6_getenv_last_match.2.1 false _ ('Z' :: []) (by decide)

/-- Claim C2, counterexample: in quiet mode a phase with no output at all after
its heading (here `# s` immediately followed by the next heading `# n`) keeps
its heading line WITHOUT any elapsed-time suffix — the run loop skips
`rewind`/`markTime` entirely when `ts.log.Len() == ts.mark` — refuting "a
phase with no directive output keeps only its heading line, which must still
carry the elapsed-time suffix".  The final transcript contains no `'('` at
all, so no ` (…s)` suffix was added. -/
theorem C2_counterexample :
    (phaseHeading false ('1' :: []) ('#' :: ' ' :: 'n' :: [])
        (phaseHeading false ('0' :: []) ('#' :: ' ' :: 's' :: [])
          ⟨[], 0, false⟩)).log =
      '#' :: ' ' :: 's' :: '\n' :: '#' :: ' ' :: 'n' :: '\n' :: [] ∧
    '(' ∉ (phaseHeading false ('1' :: []) ('#' :: ' ' :: 'n' :: [])
        (phaseHeading false ('0' :: []) ('#' :: ' ' :: 's' :: [])
          ⟨[], 0, false⟩)).log := by
  decide

/-- Claim C2, amended: in quiet mode, when a phase that logged something closes
successfully, every line logged after its heading is removed and the heading
carries the elapsed-time suffix; a phase with no output at all after its
heading keeps only its heading line, without an elapsed-time suffix (the
truncate-and-annotate step is skipped); in verbose mode nothing is removed and
the suffix is still inserted after the heading.  `st` is the state right after
a heading was printed (`mark` at end of log, timer running). -/
theorem C2_phase_truncation :
    (∀ (st : LogState) (line elapsed heading : List Char),
      st.startSet = true → st.mark = st.log.length → 0 < st.mark →
      (phaseHeading false elapsed heading (logLine line st)).log =
        st.log.take (st.mark - 1) ++
          (' ' :: '(' :: elapsed ++ ('s' :: ')' :: '\n' :: [])) ++
          heading ++ ['\n']) ∧
    (∀ (st : LogState) (elapsed heading : List Char),
      st.mark = st.log.length →
      (phaseHeading false elapsed heading st).log =
        st.log ++ heading ++ ['\n']) ∧
    (∀ (st : LogState) (line elapsed heading : List Char),
      st.startSet = true → st.mark = st.log.length → 0 < st.mark →
      (phaseHeading true elapsed heading (logLine line st)).log =
        st.log.take (st.mark - 1) ++
          (' ' :: '(' :: elapsed ++ ('s' :: ')' :: '\n' :: [])) ++
          line ++ ['\n'] ++ heading ++ ['\n']) := by
  refine ⟨?_, ?_, ?_⟩
  · intro st line elapsed heading h1 h2 h3
    simp only [phaseHeading, logLine, rewind, markTime, h1, h2]
    have hlt : st.log.length < (st.log ++ line ++ ['\n']).length := by
      simp [List.length_append]
    rw [if_pos hlt]
    simp only [if_neg (Bool.false_ne_true), List.append_assoc]
    rw [List.take_left]
    rw [if_pos (And.intro (h2 ▸ h3) trivial)]
    simp [List.drop_length]
  · intro st elapsed heading h2
    simp only [phaseHeading, h2]
    rw [if_neg (lt_irrefl _)]
  · intro st line elapsed heading h1 h2 h3
    have hlt : st.mark < (st.log ++ (line ++ ['\n'])).length := by
      simp [List.length_append, h2]
    have htake : (st.log ++ (line ++ ['\n'])).take (st.mark - 1) =
        st.log.take (st.mark - 1) := by
      rw [List.take_append_of_le_length (by omega)]
    have hdrop : (st.log ++ (line ++ ['\n'])).drop st.mark = line ++ ['\n'] := by
      rw [h2, List.drop_left]
    simp only [phaseHeading, logLine, rewind, markTime, h1, if_true,
      List.append_assoc]
    rw [if_pos hlt]
    rw [if_pos (And.intro h3 trivial)]
    simp only [htake, hdrop]
    simp

/-- Witness for claim C2: the amended theorem applied to a concrete state just
after the heading `#` was printed, a logged directive echo `>x`, and the next
heading `#n`. -/
theorem C2_phase_truncation_witness :
    (phaseHeading false ('1' :: []) ('#' :: 'n' :: [])
        (logLine ('>' :: 'x' :: []) ⟨'#' :: '\n' :: [], 2, true⟩)).log =
      '#' :: ' ' :: '(' :: '1' :: 's' :: ')' :: '\n' :: '#' :: 'n' :: '\n' ::
        [] ∧
    (phaseHeading false ('1' :: []) ('#' :: 'n' :: [])
        ⟨'#' :: '\n' :: [], 2, true⟩).log =
      '#' :: '\n' :: '#' :: 'n' :: '\n' :: [] ∧
    (phaseHeading true ('1' :: []) ('#' :: 'n' :: [])
        (logLine ('>' :: 'x' :: []) ⟨'#' :: '\n' :: [], 2, true⟩)).log =
      '#' :: ' ' :: '(' :: '1' :: 's' :: ')' :: '\n' :: '>' :: 'x' :: '\n' ::
        '#' :: 'n' :: '\n' :: [] := by
  refine ⟨?_, ?_, ?_⟩
  · exact (C2_phase_truncation.1 ⟨'#' :: '\n' :: [], 2, true⟩
      ('>' :: 'x' :: []) ('1' :: []) ('#' :: 'n' :: [])
      rfl (by decide) (by decide)).trans (by decide)
  · exact (C2_phase_truncation.2.1 ⟨'#' :: '\n' :: [], 2, true⟩
      ('1' :: []) ('#' :: 'n' :: []) (by decide)).trans (by decide)
  · exact (C2_phase_truncation.2.2 ⟨'#' :: '\n' :: [], 2, true⟩
      ('>' :: 'x' :: []) ('1' :: []) ('#' :: 'n' :: [])
      rfl (by decide) (by decide)).trans (by decide)

/-- A character of `replaceAllChar c rep s` comes from the replacement text or
is a character of `s` other than `c`. -/
theorem mem_replaceAllChar {x c : Char} {rep s : List Char}
    (h : x ∈ replaceAllChar c rep s) : x ∈ rep ∨ (x ∈ s ∧ x ≠ c) := by
  induction s with
  | nil => simp [replaceAllChar] at h
  | cons y rest ih =>
    simp only [replaceAllChar] at h
    by_cases hy : y = c
    · rw [if_pos hy] at h
      rcases List.mem_append.mp h with h | h
      · exact Or.inl h
      · rcases ih h with h | ⟨ha, hb⟩
        · exact Or.inl h
        · exact Or.inr ⟨List.mem_cons_of_mem y ha, hb⟩
    · rw [if_neg hy] at h
      rcases List.mem_cons.mp h with h | h
      · exact Or.inr ⟨h ▸ List.mem_cons_self y rest, h ▸ hy⟩
      · rcases ih h with h | ⟨ha, hb⟩
        · exact Or.inl h
        · exact Or.inr ⟨List.mem_cons_of_mem y ha, hb⟩

/-- The escaped annotation message contains no newline and no carriage
return: the message really occupies one line. -/
theorem escapeGH_single_line (s : List Char) :
    '\n' ∉ escapeGH s ∧ '\r' ∉ escapeGH s := by
  constructor
  · intro h
    rcases mem_replaceAllChar h with h | ⟨h1, _⟩
    · exact absurd h (by decide)
    · rcases mem_replaceAllChar h1 with h | ⟨_, h2⟩
      · exact absurd h (by decide)
      · exact h2 rfl
  · intro h
    rcases mem_replaceAllChar h with h | ⟨_, h2⟩
    · exact absurd h (by decide)
    · exact h2 rfl

/-- Claim C3, counterexample: the annotation actually emitted does not have the
claimed format `file=<path>,line=<n>::<escaped message>` — it starts with the
workflow-command prefix `::error `, not with `file=`: at the concrete input
(path `p`, line 3, log `m`) no instantiation of the claimed format matches
the emitted line. -/
theorem C3_counterexample :
    ¬ ∃ (path : List Char) (n : Nat) (msg : List Char),
      addGHAnnotationLine ('p' :: []) 3 ('m' :: []) =
        specAnnotationFormat path n msg ++ ['\n'] := by
  rintro ⟨path, n, msg, h⟩
  have h0 : (addGHAnnotationLine ('p' :: []) 3 ('m' :: [])).head? = some ':' := by
    decide
  rw [h] at h0
  simp [specAnnotationFormat] at h0

/-- Claim C3, amended: every fatal failure emits exactly one structured
annotation line of the form `::error file=<path>,line=<n>::<escaped message>`,
where the message is everything logged since the most recent `[stdout]`
marker (the whole log when there is none) with newlines and carriage returns
collapsed to `%0A`/`%0D` so the message occupies one line; and `Fatalf` first
appends the `FAIL: <file>:<line>: <msg>` line to the transcript and derives
the annotation from the transcript so extended.  The last conjunct checks the
marker arithmetic on a concrete log. -/
theorem C3_fatal_annotation :
    (∀ (path : List Char) (n : Nat) (log : List Char),
      addGHAnnotationLine path n log =
        (':' :: ':' :: 'e' :: 'r' :: 'r' :: 'o' :: 'r' :: ' ' :: []) ++
          specAnnotationFormat path n
            (escapeGH (log.drop (lastIndex log stdoutMarker + 1).toNat)) ++
          ['\n']) ∧
    (∀ s, '\n' ∉ escapeGH s ∧ '\r' ∉ escapeGH s) ∧
    (∀ (file : List Char) (n : Nat) (msg log : List Char),
      (TestScript.Fatalf file n msg log).1 =
        log ++ ('F' :: 'A' :: 'I' :: 'L' :: ':' :: ' ' :: []) ++ file ++
          [':'] ++ (toString n).toList ++ (':' :: ' ' :: []) ++ msg ++
          ['\n'] ∧
      (TestScript.Fatalf file n msg log).2 =
        addGHAnnotationLine file n (TestScript.Fatalf file n msg log).1) ∧
    (TestScript.Fatalf ("f.txt".toList) 3 ("boom".toList)
        ("x\n[stdout]\nout\n".toList)).2 =
      ("::error file=f.txt,line=3::[stdout]%0Aout%0AFAIL: f.txt:3: boom%0A\n").toList := by
  refine ⟨?_, escapeGH_single_line, ?_, by decide⟩
  · intro path n log
    simp [addGHAnnotationLine, specAnnotationFormat, List.append_assoc]
  · intro file n msg log
    exact ⟨by simp [TestScript.Fatalf, List.append_assoc], rfl⟩

/-- Claim C8: for every environment lookup `g`, expanding `${FOO@R}` substitutes
the regex-escaped value of `FOO`, while `${FOO}` substitutes the raw value;
the rewriting happens only inside the expansion step of the grammar — an
unquoted `${FOO}` token expands to the value (with no resplitting), while the
same reference inside single quotes is left entirely literal. -/
theorem C8_expand_regex_suffix :
    ∀ g : List Char → List Char,
      TestScript.expand g exRefR = quoteMeta (g fooKey) ∧
      TestScript.expand g exRef = g fooKey ∧
      parse (TestScript.expand g) exRef = some ((g fooKey) :: []) ∧
      parse (TestScript.expand g) (sq :: (exRefR ++ (sq :: []))) =
        some (exRefR :: []) := by
  intro g
  refine ⟨?_, ?_, ?_, ?_⟩
  · show quoteMeta (g fooKey) ++ ([] : List Char) = quoteMeta (g fooKey)
    simp
  · show g fooKey ++ ([] : List Char) = g fooKey
    simp
  · show some ((([] : List Char) ++ (g fooKey ++ [])) :: []) =
      some ((g fooKey) :: [])
    simp
  · rfl

end Eden
